import Mathlib

/-!
Verification development for the Bloomingdale's scraper repository.

The file shallowly embeds the pieces of the source that the checked
properties talk about:

* `src/pipelines.py` — `BloomingdalesExcelPipeline.close_spider`: build a
  table from the items collected during the run, ensure/reorder the
  canonical columns, drop duplicate `product_code` rows (pandas default
  `keep='first'`), then, for each of the two persisted files that exists,
  concatenate existing+new and drop duplicates with `keep='last'`.
* `src/bloomingdales_products/spiders/bloomingdales.py` — the designer-brand
  parsing callback (`parse_designer_brand`), the selector fallback chain
  (`extract_image_url`), the normalizers (`convert_price_to_float`,
  `extract_rating_and_reviews`, `get_price`), the pagination counter logic,
  and the `spider_closed` post-pass.
* `src/bloomingdales_products/spiders/bloomingdales_image_scraper.py` — the
  retry logic of `check_missing_urls_and_retry`.

Machine floats returned by Python's `float()` are modelled as exact
rationals of the decimal text (`ℚ`); IEEE `inf`/`nan` literals, which the
checked properties never touch, are mapped to `none`.  Pandas `NaN` keys
compare equal to each other in `drop_duplicates`, which the model mirrors
by using `Option String` for `product_code` with `none = none`.
-/

/-- A cell value of the output table.  The spider writes strings, floats,
ints and booleans into the item dict; `Option` is Python `None`/`NaN`. -/
structure Row where
  website_name : Option String
  competence_date : Option String
  brand : Option String
  product_code : Option String
  country_code : Option String
  currency_code : Option String
  full_price : Option ℚ
  price : Option ℚ
  category1_code : Option ℚ
  category2_code : Option ℕ
  category3_code : Option Bool
  title : Option String
  imageurl : Option String
  itemurl : Option String
  deriving DecidableEq, Repr

/-- The dedup key used by every `drop_duplicates(subset='product_code')`
call.  `none` models pandas `NaN`, and pandas treats `NaN` keys as equal
to each other when dropping duplicates. -/
def keyOf (r : Row) : Option String := r.product_code

/-- Pandas `df.drop_duplicates(subset='product_code')` with the default
`keep='first'`: a row survives iff its key has not occurred earlier.
`seen` accumulates the keys of rows already kept or skipped. -/
def dedupFirstAux (seen : List (Option String)) : List Row → List Row
  | [] => []
  | r :: rs =>
    if keyOf r ∈ seen then dedupFirstAux seen rs
    else r :: dedupFirstAux (keyOf r :: seen) rs

/-- Pandas `drop_duplicates(subset='product_code')` (default `keep='first'`). -/
def dedupFirst (l : List Row) : List Row := dedupFirstAux [] l

/-- Pandas `drop_duplicates(subset='product_code', keep='last')`: a row survives
iff its key does not occur again later; surviving rows keep their order. -/
def dedupLast : List Row → List Row
  | [] => []
  | r :: rs =>
    if keyOf r ∈ rs.map keyOf then dedupLast rs
    else r :: dedupLast rs

/-- The pipeline `BloomingdalesExcelPipeline.close_spider` (src/pipelines.py).  The
items collected by `process_item` become a table; the column-ensuring and
column-reordering steps are the identity here because `Row` always carries
the full canonical column set; then the in-run table is deduplicated by
`product_code` (`keep='first'`), and for each persisted file that exists
(`data/bloomingdales_products.csv`, then `.xlsx`) the existing table is
concatenated in front of the current one and deduplicated with
`keep='last'`, so new data supersedes existing rows.  The result is what
gets written to both files. -/
def close_spider (items : List Row)
    (existingCsv existingXlsx : Option (List Row)) : List Row :=
  let df := dedupFirst items
  let df := match existingCsv with
    | some ex => dedupLast (ex ++ df)
    | none => df
  let df := match existingXlsx with
    | some ex => dedupLast (ex ++ df)
    | none => df
  df

/-- The finalize step as the spec views it: one logical persisted dataset.
`close_spider` writes identical content to the CSV and Excel files, so a
pre-existing persisted dataset means both files hold the same table, and
no persisted dataset means neither file exists. -/
def finalize (new : List Row) (existing : Option (List Row)) : List Row :=
  close_spider new existing existing

/-- The handler `BloomingdalesSpider.spider_closed`
(src/bloomingdales_products/spiders/bloomingdales.py, lines 268-282):
re-read the persisted CSV, drop duplicate `product_code` rows (default
`keep='first'`) and overwrite both files with the result. -/
def spider_closed (persisted : List Row) : List Row :=
  dedupFirst persisted

/-- The set of dedup keys of a table. -/
def keysF (l : List Row) : Finset (Option String) := (l.map keyOf).toFinset

lemma keysF_append (l₁ l₂ : List Row) : keysF (l₁ ++ l₂) = keysF l₁ ∪ keysF l₂ := by
  simp [keysF]

lemma mem_keys_dedupLast {k : Option String} {l : List Row} :
    k ∈ (dedupLast l).map keyOf ↔ k ∈ l.map keyOf := by
  induction l with
  | nil => rfl
  | cons r rs ih =>
    show k ∈ (if keyOf r ∈ rs.map keyOf then dedupLast rs
        else r :: dedupLast rs).map keyOf ↔ _
    by_cases hmem : keyOf r ∈ rs.map keyOf
    · rw [if_pos hmem, ih, List.map_cons]
      constructor
      · exact List.mem_cons_of_mem _
      · intro h
        rcases List.mem_cons.mp h with h1 | h1
        · exact h1 ▸ hmem
        · exact h1
    · rw [if_neg hmem, List.map_cons, List.map_cons]
      constructor
      · intro h
        rcases List.mem_cons.mp h with h1 | h1
        · exact h1 ▸ List.mem_cons_self _ _
        · exact List.mem_cons_of_mem _ (ih.mp h1)
      · intro h
        rcases List.mem_cons.mp h with h1 | h1
        · exact h1 ▸ List.mem_cons_self _ _
        · exact List.mem_cons_of_mem _ (ih.mpr h1)

lemma keysF_dedupLast (l : List Row) : keysF (dedupLast l) = keysF l := by
  ext k
  simp only [keysF, List.mem_toFinset]
  exact mem_keys_dedupLast

lemma nodup_keys_dedupLast (l : List Row) : ((dedupLast l).map keyOf).Nodup := by
  induction l with
  | nil => exact List.nodup_nil
  | cons r rs ih =>
    show ((if keyOf r ∈ rs.map keyOf then dedupLast rs
        else r :: dedupLast rs).map keyOf).Nodup
    by_cases hmem : keyOf r ∈ rs.map keyOf
    · rw [if_pos hmem]
      exact ih
    · rw [if_neg hmem, List.map_cons, List.nodup_cons]
      exact ⟨fun h => hmem (mem_keys_dedupLast.mp h), ih⟩

lemma notMem_keys_dedupFirstAux {k : Option String} {seen : List (Option String)}
    (l : List Row) (hk : k ∈ seen) : k ∉ (dedupFirstAux seen l).map keyOf := by
  induction l generalizing seen with
  | nil => simp [dedupFirstAux]
  | cons r rs ih =>
    show k ∉ (if keyOf r ∈ seen then dedupFirstAux seen rs
        else r :: dedupFirstAux (keyOf r :: seen) rs).map keyOf
    by_cases hmem : keyOf r ∈ seen
    · rw [if_pos hmem]
      exact ih hk
    · rw [if_neg hmem, List.map_cons]
      intro h
      rcases List.mem_cons.mp h with h1 | h1
      · exact hmem (h1 ▸ hk)
      · exact ih (List.mem_cons_of_mem _ hk) h1

lemma mem_keys_dedupFirstAux {k : Option String} {seen : List (Option String)}
    {l : List Row} :
    k ∈ (dedupFirstAux seen l).map keyOf ↔ k ∈ l.map keyOf ∧ k ∉ seen := by
  induction l generalizing seen with
  | nil => simp [dedupFirstAux]
  | cons r rs ih =>
    show k ∈ (if keyOf r ∈ seen then dedupFirstAux seen rs
        else r :: dedupFirstAux (keyOf r :: seen) rs).map keyOf ↔ _
    by_cases hmem : keyOf r ∈ seen
    · rw [if_pos hmem, ih, List.map_cons]
      constructor
      · rintro ⟨h, hns⟩
        exact ⟨List.mem_cons_of_mem _ h, hns⟩
      · rintro ⟨h, hns⟩
        rcases List.mem_cons.mp h with h1 | h1
        · exact absurd (h1 ▸ hmem) hns
        · exact ⟨h1, hns⟩
    · rw [if_neg hmem, List.map_cons, List.map_cons]
      constructor
      · intro h
        rcases List.mem_cons.mp h with h1 | h1
        · exact ⟨h1 ▸ List.mem_cons_self _ _, h1 ▸ hmem⟩
        · rcases ih.mp h1 with ⟨hm, hns⟩
          exact ⟨List.mem_cons_of_mem _ hm,
            fun hs => hns (List.mem_cons_of_mem _ hs)⟩
      · rintro ⟨h, hns⟩
        rcases List.mem_cons.mp h with h1 | h1
        · exact h1 ▸ List.mem_cons_self _ _
        · by_cases hrk : k = keyOf r
          · exact hrk ▸ List.mem_cons_self _ _
          · refine List.mem_cons_of_mem _ (ih.mpr ⟨h1, fun hs => ?_⟩)
            rcases List.mem_cons.mp hs with h2 | h2
            · exact hrk h2
            · exact hns h2

lemma nodup_keys_dedupFirstAux (seen : List (Option String)) (l : List Row) :
    ((dedupFirstAux seen l).map keyOf).Nodup := by
  induction l generalizing seen with
  | nil => exact List.nodup_nil
  | cons r rs ih =>
    show ((if keyOf r ∈ seen then dedupFirstAux seen rs
        else r :: dedupFirstAux (keyOf r :: seen) rs).map keyOf).Nodup
    by_cases hmem : keyOf r ∈ seen
    · rw [if_pos hmem]
      exact ih seen
    · rw [if_neg hmem, List.map_cons, List.nodup_cons]
      exact ⟨notMem_keys_dedupFirstAux rs (List.mem_cons_self _ _), ih _⟩

lemma nodup_keys_dedupFirst (l : List Row) : ((dedupFirst l).map keyOf).Nodup :=
  nodup_keys_dedupFirstAux [] l

lemma keysF_dedupFirst (l : List Row) : keysF (dedupFirst l) = keysF l := by
  ext k
  simp only [keysF, List.mem_toFinset, dedupFirst, mem_keys_dedupFirstAux,
    List.not_mem_nil, not_false_iff, and_true]

lemma length_eq_card_keysF {l : List Row} (h : (l.map keyOf).Nodup) :
    l.length = (keysF l).card := by
  rw [keysF, List.toFinset_card_of_nodup h, List.length_map]

lemma length_dedupLast (l : List Row) : (dedupLast l).length = (keysF l).card := by
  rw [length_eq_card_keysF (nodup_keys_dedupLast l), keysF_dedupLast]

lemma length_dedupFirst (l : List Row) : (dedupFirst l).length = (keysF l).card := by
  rw [length_eq_card_keysF (nodup_keys_dedupFirst l), keysF_dedupFirst]

lemma dedupLast_eq_self {l : List Row} (h : (l.map keyOf).Nodup) :
    dedupLast l = l := by
  induction l with
  | nil => rfl
  | cons r rs ih =>
    rw [List.map_cons, List.nodup_cons] at h
    rw [dedupLast, if_neg h.1, ih h.2]

lemma dedupLast_append_of_keys_subset {l₁ l₂ : List Row}
    (h : ∀ r ∈ l₁, keyOf r ∈ l₂.map keyOf) :
    dedupLast (l₁ ++ l₂) = dedupLast l₂ := by
  induction l₁ with
  | nil => rfl
  | cons r rs ih =>
    have hr : keyOf r ∈ (rs ++ l₂).map keyOf := by
      simp only [List.map_append, List.mem_append]
      exact Or.inr (h r (List.mem_cons_self _ _))
    show (if keyOf r ∈ (rs ++ l₂).map keyOf then dedupLast (rs ++ l₂)
        else r :: dedupLast (rs ++ l₂)) = dedupLast l₂
    rw [if_pos hr, ih (fun s hs => h s (List.mem_cons_of_mem _ hs))]

lemma filter_dedupLast (k : Option String) (l : List Row) :
    (dedupLast l).filter (fun r => decide (keyOf r = k)) =
      ((l.filter (fun r => decide (keyOf r = k))).getLast?).toList := by
  induction l with
  | nil => rfl
  | cons r rs ih =>
    show (if keyOf r ∈ rs.map keyOf then dedupLast rs
        else r :: dedupLast rs).filter _ = _
    by_cases hmem : keyOf r ∈ rs.map keyOf
    · rw [if_pos hmem, ih]
      by_cases hk : keyOf r = k
      · have hne : rs.filter (fun r => decide (keyOf r = k)) ≠ [] := by
          rcases List.mem_map.mp hmem with ⟨s, hs, hkey⟩
          intro hnil
          have hcontra := List.filter_eq_nil_iff.mp hnil s hs
          rw [hkey, hk] at hcontra
          simp at hcontra
        rcases List.exists_cons_of_ne_nil hne with ⟨b, t, hbt⟩
        rw [List.filter_cons,
          if_pos (show decide (keyOf r = k) = true by simp [hk]), hbt,
          List.getLast?_cons_cons]
      · rw [List.filter_cons,
          if_neg (show ¬decide (keyOf r = k) = true by simp [hk])]
    · rw [if_neg hmem]
      by_cases hk : keyOf r = k
      · have hdl : (dedupLast rs).filter (fun r => decide (keyOf r = k)) = [] := by
          apply List.filter_eq_nil_iff.mpr
          intro s hs
          simp only [decide_eq_true_eq]
          intro hsk
          apply hmem
          rw [hk, ← hsk]
          exact mem_keys_dedupLast.mp (List.mem_map_of_mem keyOf hs)
        have hrs : rs.filter (fun r => decide (keyOf r = k)) = [] := by
          apply List.filter_eq_nil_iff.mpr
          intro s hs
          simp only [decide_eq_true_eq]
          intro hsk
          apply hmem
          rw [hk, ← hsk]
          exact List.mem_map_of_mem keyOf hs
        rw [List.filter_cons,
          if_pos (show decide (keyOf r = k) = true by simp [hk]), hdl,
          List.filter_cons,
          if_pos (show decide (keyOf r = k) = true by simp [hk]), hrs]
        rfl
      · rw [List.filter_cons,
          if_neg (show ¬decide (keyOf r = k) = true by simp [hk]),
          List.filter_cons,
          if_neg (show ¬decide (keyOf r = k) = true by simp [hk])]
        exact ih

lemma filter_dedupFirstAux (k : Option String) (seen : List (Option String))
    (l : List Row) (hk : k ∉ seen) :
    (dedupFirstAux seen l).filter (fun r => decide (keyOf r = k)) =
      ((l.filter (fun r => decide (keyOf r = k))).head?).toList := by
  induction l generalizing seen with
  | nil => rfl
  | cons r rs ih =>
    show (if keyOf r ∈ seen then dedupFirstAux seen rs
        else r :: dedupFirstAux (keyOf r :: seen) rs).filter _ = _
    by_cases hmem : keyOf r ∈ seen
    · have hrk : ¬keyOf r = k := fun h => hk (h ▸ hmem)
      rw [if_pos hmem, ih seen hk, List.filter_cons,
        if_neg (show ¬decide (keyOf r = k) = true by simp [hrk])]
    · rw [if_neg hmem]
      by_cases hrk : keyOf r = k
      · have hdl : (dedupFirstAux (keyOf r :: seen) rs).filter
            (fun r => decide (keyOf r = k)) = [] := by
          apply List.filter_eq_nil_iff.mpr
          intro s hs
          simp only [decide_eq_true_eq]
          intro hsk
          have hmemk : k ∈ keyOf r :: seen := by
            rw [← hrk]
            exact List.mem_cons_self _ _
          apply @notMem_keys_dedupFirstAux k (keyOf r :: seen) rs hmemk
          rw [← hsk]
          exact List.mem_map_of_mem keyOf hs
        rw [List.filter_cons,
          if_pos (show decide (keyOf r = k) = true by simp [hrk]), hdl,
          List.filter_cons,
          if_pos (show decide (keyOf r = k) = true by simp [hrk])]
        rfl
      · have hk' : k ∉ keyOf r :: seen := by
          intro h
          rcases List.mem_cons.mp h with h1 | h1
          · exact hrk h1.symm
          · exact hk h1
        rw [List.filter_cons,
          if_neg (show ¬decide (keyOf r = k) = true by simp [hrk]),
          List.filter_cons,
          if_neg (show ¬decide (keyOf r = k) = true by simp [hrk])]
        exact ih _ hk'

lemma filter_dedupFirst (k : Option String) (l : List Row) :
    (dedupFirst l).filter (fun r => decide (keyOf r = k)) =
      ((l.filter (fun r => decide (keyOf r = k))).head?).toList :=
  filter_dedupFirstAux k [] l (List.not_mem_nil k)

lemma nodup_keys_finalize (new : List Row) (existing : Option (List Row)) :
    ((finalize new existing).map keyOf).Nodup := by
  cases existing with
  | none => exact nodup_keys_dedupFirst new
  | some ex => exact nodup_keys_dedupLast _

lemma keysF_dedupFirst_subset_finalize (new : List Row)
    (existing : Option (List Row)) :
    keysF (dedupFirst new) ⊆ keysF (finalize new existing) := by
  cases existing with
  | none => exact subset_refl _
  | some ex =>
    show keysF (dedupFirst new) ⊆
      keysF (dedupLast (ex ++ dedupLast (ex ++ dedupFirst new)))
    rw [keysF_dedupLast, keysF_append, keysF_dedupLast, keysF_append]
    intro k hk
    simp only [Finset.mem_union]
    tauto

/-- A concrete record as the spider produces it, used to instantiate the
merge theorems on concrete inputs. -/
def sampleRow (code : Option String) (fp : Option ℚ) : Row :=
  ⟨some "www.bloomingdales.com", some "2024-01-01", some "Brand", code,
    some "USA", some "USD", fp, none, none, none, none, none, none, none⟩

/-! ### Python string primitives

The spider manipulates strings with `str.replace`, `str.strip`,
`str.split` and the `in` operator.  They are modelled here over `List
Char` with structural recursion, so that every concrete evaluation goes
through the kernel. -/

/-- Does `pat` occur at the head of `l`? -/
def isPrefixList : List Char → List Char → Bool
  | [], _ => true
  | _ :: _, [] => false
  | p :: ps, c :: cs => p = c && isPrefixList ps cs

/-- Worker for Python `str.replace`: scan left to right, replacing each
non-overlapping occurrence of `pat`.  `skip` counts characters of an
already-matched occurrence still to drop. -/
def replaceGo (pat rep : List Char) : List Char → ℕ → List Char
  | [], _ => []
  | _ :: cs, skip + 1 => replaceGo pat rep cs skip
  | c :: cs, 0 =>
    if isPrefixList pat (c :: cs) then
      rep ++ replaceGo pat rep cs (pat.length - 1)
    else c :: replaceGo pat rep cs 0

/-- Python `s.replace(pat, rep)` (for the nonempty patterns the spider
uses). -/
def pyReplace (s pat rep : String) : String :=
  ⟨replaceGo pat.data rep.data s.data 0⟩

/-- Worker for Python `str.split(sep)`: `acc` is the current piece in
reverse, `skip` as in `replaceGo`. -/
def splitGo (sep : List Char) : List Char → ℕ → List Char → List (List Char)
  | [], _, acc => [acc.reverse]
  | _ :: cs, skip + 1, acc => splitGo sep cs skip acc
  | c :: cs, 0, acc =>
    if isPrefixList sep (c :: cs) then
      acc.reverse :: splitGo sep cs (sep.length - 1) []
    else splitGo sep cs 0 (c :: acc)

/-- Python `s.split(sep)` for a nonempty separator: always returns a
nonempty list of pieces. -/
def pySplit (s sep : String) : List String :=
  (splitGo sep.data s.data 0 []).map (fun l => ⟨l⟩)

/-- Python `s.strip()`: remove leading and trailing whitespace. -/
def pyStrip (s : String) : String :=
  ⟨((s.data.dropWhile Char.isWhitespace).reverse.dropWhile
      Char.isWhitespace).reverse⟩

/-- Does `pat` occur anywhere in `l`? -/
def listContains (pat : List Char) : List Char → Bool
  | [] => pat.isEmpty
  | c :: cs => isPrefixList pat (c :: cs) || listContains pat cs

/-- Python `sub in s`. -/
def pyContains (sub s : String) : Bool := listContains sub.data s.data

/-! ### Python `float()` on strings

`convert_price_to_float` funnels its cleaned text into Python's `float`.
The grammar accepted on a string argument is: optional surrounding
whitespace, optional sign, decimal digits with an optional fractional
part and an optional exponent, with underscores permitted only between
digits.  The parse result is kept discrete — signed mantissa, number of
fractional digits, exponent — and turned into an exact rational at the
end.  The IEEE special spellings (`inf`, `infinity`, `nan`), which have
no rational value and which no checked property touches, parse to
`none` here. -/

/-- Value of a digit run. -/
def digitsVal (cs : List Char) : ℕ :=
  cs.foldl (fun a c => 10 * a + (c.toNat - 48)) 0

/-- CPython's underscore rule, scanning with the previous character:
every `_` must be flanked by digits on both sides. -/
def underscoresAux (prev : Char) : List Char → Bool
  | [] => true
  | c :: rest =>
    if c = '_' then
      (prev.isDigit &&
        (match rest with | d :: _ => d.isDigit | [] => false)) &&
        underscoresAux c rest
    else underscoresAux c rest

/-- Underscores (if any) appear only between digits; a leading underscore
is rejected outright. -/
def underscoresBetweenDigits : List Char → Bool
  | [] => true
  | c :: rest => if c = '_' then false else underscoresAux c rest

/-- Exponent digits after an optional sign: all characters must be
digits and at least one must be present. -/
def parseExpDigits (sgn : ℤ) (cs : List Char) : Option ℤ :=
  if cs.isEmpty then none
  else if cs.all Char.isDigit then some (sgn * (digitsVal cs : ℤ)) else none

/-- The exponent part of a float literal (after `e`/`E`). -/
def parseExp : List Char → Option ℤ
  | '+' :: rest => parseExpDigits 1 rest
  | '-' :: rest => parseExpDigits (-1) rest
  | rest => parseExpDigits 1 rest

/-- Core float grammar on sign-stripped, underscore-stripped characters:
`digits [. digits] [(e|E) exp]`, needing at least one mantissa digit.
Returns (signed mantissa, fractional digit count, exponent). -/
def pyFloatRepCore (sgn : ℤ) (cs : List Char) : Option (ℤ × ℕ × ℤ) :=
  let intDs := cs.takeWhile Char.isDigit
  let rest1 := cs.drop intDs.length
  match rest1 with
  | [] =>
    if intDs.isEmpty then none
    else some (sgn * (digitsVal intDs : ℤ), 0, 0)
  | '.' :: rest2 =>
    let fracDs := rest2.takeWhile Char.isDigit
    let rest3 := rest2.drop fracDs.length
    if intDs.isEmpty && fracDs.isEmpty then none
    else
      let m := sgn * (digitsVal (intDs ++ fracDs) : ℤ)
      match rest3 with
      | [] => some (m, fracDs.length, 0)
      | 'e' :: rest4 => (parseExp rest4).map (fun e => (m, fracDs.length, e))
      | 'E' :: rest4 => (parseExp rest4).map (fun e => (m, fracDs.length, e))
      | _ => none
  | 'e' :: rest2 =>
    if intDs.isEmpty then none
    else (parseExp rest2).map (fun e => (sgn * (digitsVal intDs : ℤ), 0, e))
  | 'E' :: rest2 =>
    if intDs.isEmpty then none
    else (parseExp rest2).map (fun e => (sgn * (digitsVal intDs : ℤ), 0, e))
  | _ => none

/-- Discrete representation of Python `float(s)`: trim whitespace, read
the sign, check and strip underscores, then parse the digit grammar. -/
def pyFloatRep (s : String) : Option (ℤ × ℕ × ℤ) :=
  let cs := (pyStrip s).data
  let (sgn, body) : ℤ × List Char :=
    match cs with
    | '+' :: rest => (1, rest)
    | '-' :: rest => (-1, rest)
    | rest => (1, rest)
  if underscoresBetweenDigits body then
    pyFloatRepCore sgn (body.filter (fun c => c != '_'))
  else none

/-- The rational value of a parsed float: mantissa / 10^frac · 10^exp. -/
def ratOfRep : ℤ × ℕ × ℤ → ℚ :=
  fun p => (p.1 : ℚ) / (10 : ℚ) ^ p.2.1 * (10 : ℚ) ^ p.2.2

/-- Python `float(s)`, as an exact rational. -/
def pyFloat (s : String) : Option ℚ := (pyFloatRep s).map ratOfRep

/-- The cleaned lower-bound text that `convert_price_to_float` feeds to
`float`: strip `$` and `,`, trim, split on `-` keeping the first piece,
trim again. -/
def price_lower_text (s : String) : String :=
  pyStrip ((pySplit (pyStrip (pyReplace (pyReplace s "$" "") "," "")) "-").headD "")

/-- The normalizer `BloomingdalesSpider.convert_price_to_float`
(src/bloomingdales_products/spiders/bloomingdales.py, lines 256-264).
`if not price_str` treats both a missing string and the empty string as
falsy; the `try` body strips the currency symbol and thousands
separators, keeps the text before the first hyphen, and calls `float`;
the `except ValueError` (a failed parse, `pyFloat = none`) yields
`None`. -/
def convert_price_to_float (price_str : Option String) : Option ℚ :=
  match price_str with
  | none => none
  | some s => if s = "" then none else pyFloat (price_lower_text s)

/-- The product-code expression of `parse_designer_brand`
(src/bloomingdales_products/spiders/bloomingdales.py, line 154):
`product_url.split("?ID=")[1].split("&")[0] if product_url else None`.
A falsy `product_url` (missing or empty) short-circuits to `None`;
otherwise the URL is split on `"?ID="` and the `[1]` subscript raises
`IndexError` when the marker is absent (the split then has one piece);
with the marker present, the code is the second piece up to its first
`"&"`. -/
def extract_product_code (product_url : Option String) :
    Except String (Option String) :=
  match product_url with
  | none => Except.ok none
  | some url =>
    if url = "" then Except.ok none
    else
      match (pySplit url "?ID=")[1]? with
      | none => Except.error "IndexError: list index out of range"
      | some t => Except.ok (some ((pySplit t "&").headD ""))

/-- C3 counterexample: a present product URL that lacks the "?ID="
parameter makes the product-code expression raise IndexError instead of
returning None, refuting "returns absent rather than raising whenever
the URL does not contain the identifier parameter". -/
theorem extract_product_code_raises :
    extract_product_code (some "https://www.bloomingdales.com/shop/product/x") =
        Except.error "IndexError: list index out of range" ∧
      extract_product_code (some "https://www.bloomingdales.com/shop/product/x") ≠
        Except.ok none := by
  have h1 : extract_product_code
      (some "https://www.bloomingdales.com/shop/product/x") =
        Except.error "IndexError: list index out of range" := rfl
  refine ⟨h1, ?_⟩
  rw [h1]
  intro h
  exact Except.noConfusion h

lemma extract_product_code_with_marker (url : String) (hne : url ≠ "")
    (hlen : (pySplit url "?ID=").length ≥ 2) :
    ∃ t, (pySplit url "?ID=")[1]? = some t ∧
      extract_product_code (some url) =
        Except.ok (some ((pySplit t "&").headD "")) := by
  rcases hl : pySplit url "?ID=" with _ | ⟨a, rest⟩
  · rw [hl] at hlen
    simp at hlen
  rcases rest with _ | ⟨b, rest2⟩
  · rw [hl] at hlen
    simp at hlen
  have hget : (a :: b :: rest2)[1]? = some b := by simp
  refine ⟨b, hget, ?_⟩
  show (if url = "" then Except.ok none else
      match (pySplit url "?ID=")[1]? with
      | none => Except.error "IndexError: list index out of range"
      | some t => Except.ok (some ((pySplit t "&").headD ""))) = _
  rw [if_neg hne, hl, hget]

lemma extract_product_code_no_marker (url : String) (hne : url ≠ "")
    (hlen : (pySplit url "?ID=").length < 2) :
    extract_product_code (some url) =
      Except.error "IndexError: list index out of range" := by
  have hget : (pySplit url "?ID=")[1]? = none := by
    apply List.getElem?_eq_none
    omega
  show (if url = "" then Except.ok none else
      match (pySplit url "?ID=")[1]? with
      | none => Except.error "IndexError: list index out of range"
      | some t => Except.ok (some ((pySplit t "&").headD ""))) = _
  rw [if_neg hne, hget]

/-- C3 (amended): product-code extraction returns None for a missing or
empty URL, and returns the identifier between the first "?ID=" and the
following "&" when the URL contains the "?ID=" marker; but for a
nonempty URL without the marker it raises IndexError rather than
returning None. -/
theorem extract_product_code_amended (url : String) (hne : url ≠ "") :
    extract_product_code none = Except.ok none ∧
    extract_product_code (some "") = Except.ok none ∧
    ((pySplit url "?ID=").length ≥ 2 →
      ∃ t, (pySplit url "?ID=")[1]? = some t ∧
        extract_product_code (some url) =
          Except.ok (some ((pySplit t "&").headD ""))) ∧
    ((pySplit url "?ID=").length < 2 →
      extract_product_code (some url) =
        Except.error "IndexError: list index out of range") :=
  ⟨rfl, rfl, extract_product_code_with_marker url hne,
    extract_product_code_no_marker url hne⟩

/-- Witness for C3's amended theorem: a URL with "?ID=123&cm=x" yields
product code "123". -/
theorem extract_product_code_amended_witness :
    extract_product_code
        (some "https://www.bloomingdales.com/shop/product/p?ID=123&cm=x") =
      Except.ok (some "123") := by
  have h := (extract_product_code_amended
      "https://www.bloomingdales.com/shop/product/p?ID=123&cm=x"
      (by decide)).2.2.1 (by decide)
  rcases h with ⟨t, ht, hval⟩
  have ht' : t = "123&cm=x" := by
    have : (pySplit "https://www.bloomingdales.com/shop/product/p?ID=123&cm=x"
        "?ID=")[1]? = some "123&cm=x" := by decide
    rw [this] at ht
    exact (Option.some.inj ht).symm
  rw [hval, ht']
  rfl

/-- The pagination decision closing `parse_designer_brand`
(src/bloomingdales_products/spiders/bloomingdales.py, lines 97-100 and
184-193): a page callback whose `current_page` meta defaults to 1 issues
a follow-up fetch carrying `current_page + 1` iff the page yielded at
least one product fragment (the zero-product early return skips
pagination) and `current_page < 7`. -/
def next_page_request (current_page scraped_products_count : ℕ) : Option ℕ :=
  if scraped_products_count = 0 then none
  else if current_page < 7 then some (current_page + 1) else none

/-- The pages one brand branch fetches: the branch starts at page 1, and
page q is fetched after page p exactly when page p's callback issued a
follow with counter q.  `counts p` is the number of product fragments
page p yields. -/
inductive FetchedPage (counts : ℕ → ℕ) : ℕ → Prop
  | init : FetchedPage counts 1
  | step {p q : ℕ} : FetchedPage counts p →
      next_page_request p (counts p) = some q → FetchedPage counts q

/-- C4: with the fixed ceiling configured at page 7, a brand branch never
issues a fetch for page 8 or beyond, whatever product counts the fetched
pages yield: every fetched page number is at most 7. -/
theorem pagination_ceiling (counts : ℕ → ℕ) (p : ℕ)
    (h : FetchedPage counts p) : p ≤ 7 := by
  induction h with
  | init => norm_num
  | @step p q hp hq ih =>
    unfold next_page_request at hq
    by_cases h0 : counts p = 0
    · rw [if_pos h0] at hq
      exact absurd hq (by simp)
    · rw [if_neg h0] at hq
      by_cases h7 : p < 7
      · rw [if_pos h7] at hq
        have := Option.some.inj hq
        omega
      · rw [if_neg h7] at hq
        exact absurd hq (by simp)

/-- Witness for C4: page 2 is reachable from page 1 when page 1 yields
products, and the ceiling theorem applies to it. -/
theorem pagination_ceiling_witness :
    FetchedPage (fun _ => 5) 2 ∧ (2 : ℕ) ≤ 7 :=
  ⟨FetchedPage.step FetchedPage.init rfl,
    pagination_ceiling (fun _ => 5) 2 (FetchedPage.step FetchedPage.init rfl)⟩

/-- A scrapy selector target: something `css`/`xpath` queries can be run
against (`.get()` returning an optional first match).  The query engine
(parsel) is an external collaborator, so a page response or a product
fragment is modelled by its query answers, `none` meaning "no match". -/
structure Response where
  css : String → Option String
  xpath : String → Option String

/-- Python truthiness of an `Optional[str]`: `None` and `""` are falsy. -/
def truthyS : Option String → Bool
  | none => false
  | some s => s != ""

/-- One query of `extract_image_url`'s loop: a selector containing
"::attr" is dispatched to `response.css`, any other to `response.xpath`
— in the source both run against the response. -/
def runSelector (response : Response) (sel : String) : Option String :=
  if pyContains "::attr" sel then response.css sel else response.xpath sel

/-- The loop of `extract_image_url`: `image_url` starts as `None`, is
overwritten by each query's result, and the loop breaks at the first
truthy value; the final value of `image_url` is returned (so if the last
query matched the empty string, that empty string is returned). -/
def extract_image_go (response : Response) (acc : Option String) :
    List String → Option String
  | [] => acc
  | s :: rest =>
    let u := runSelector response s
    if truthyS u then u else extract_image_go response u rest

/-- The selector list hard-coded in `BloomingdalesSpider.extract_image_url`
(src/bloomingdales_products/spiders/bloomingdales.py, lines 199-214). -/
def image_selectors : List String :=
  ["picture.main-picture > img::attr(src)",
   "picture.main-picture > source::attr(srcset)",
   "//picture[@class=\"main-picture\"]/img/@src",
   "//picture[@class=\"main-picture\"]/source[1]/@srcset",
   "//div[@class=\"picture-container\"]/picture/source[@media=\"(max-width: 599px)\"]/@srcset",
   "//div[@class=\"picture-container\"]/picture/source[@media=\"(min-width: 600px) and (max-width: 1023px)\"]/@srcset",
   "//div[@class=\"picture-container\"]/picture/source[@media=\"(min-width: 1024px) and (max-width: 1279px)\"]/@srcset",
   "//div[@class=\"picture-container\"]/picture/source[@media=\"(min-width: 1280px) and (max-width: 1599px)\"]/@srcset",
   "//div[@class=\"picture-container\"]/picture/source[@media=\"(min-width: 1600px)\"]/@srcset",
   "#product-thumbnail-5096784 > a > div > div > div > div > div > div.v-scroller > ul > li.active.cell.small-12.slideshow-item > div > picture > img::attr(src)",
   "/html/body/div[3]/main/div/div[3]/ul/li[1]/div/div/div[1]/div/a/div/div/div/div/div/div[2]/ul/li[2]/div/picture/img/@src",
   "/html/body/div[3]/main/div/div[3]/ul/li[1]/div/div/div[1]/div/a/div/div/div/div/div/div[2]/ul/li[2]/div/picture/source[2]/@srcset",
   "#product-thumbnail-5096784 > a > div > div > div > div > div > div.v-scroller > ul > li.active.cell.small-12.slideshow-item > div > picture > source:nth-child(2)::attr(srcset)",
   "/html/body/div[3]/main/div/div[3]/ul/li[1]/div/div/div[1]/div/a/div/div/div/div/div/div[2]/ul/li[2]/div/picture/source[1]/@srcset"]

/-- The chain `BloomingdalesSpider.extract_image_url` (lines 198-224): receives the
product fragment and the page response, and runs its selector loop.  The
selector list is a parameter here so the ordered-rules contract can be
stated; the source instantiates it with `image_selectors`.  Note that
every query in the source's loop runs against `response`; the `product`
argument is never used. -/
def extract_image_url (product response : Response)
    (selectors : List String) : Option String :=
  extract_image_go response none selectors

/-- Modelled from the spec's words (§4.1, contract
`extract(fragment, ordered_rules)`): try the ordered rules as queries
against the given fragment; the first rule producing a non-empty match
wins; if all rules fail the result is absent.  Stated only to compare
with `extract_image_url`, whose claim says the rules run against the
product fragment. -/
def extract_image_spec (fragment : Response) : List String → Option String
  | [] => none
  | s :: rest =>
    let u := runSelector fragment s
    if truthyS u then u else extract_image_spec fragment rest

/-- A product fragment with no image anywhere. -/
def fragNoImage : Response := ⟨fun _ => none, fun _ => none⟩

/-- A page response whose xpath query "r" yields an image. -/
def pageWithImage : Response :=
  ⟨fun _ => none, fun sel => if sel = "r" then some "page.jpg" else none⟩

/-- C5 counterexample: for a fragment with no image match at all but a
page response that matches rule "r", the extractor returns the page's
match — the rules were not run against the fragment, refuting "tries the
rules ... as queries against that fragment". -/
theorem extract_image_url_queries_response :
    extract_image_url fragNoImage pageWithImage ["r"] = some "page.jpg" ∧
      extract_image_spec fragNoImage ["r"] = none ∧
      extract_image_url fragNoImage pageWithImage ["r"] ≠
        extract_image_spec fragNoImage ["r"] := by
  have h1 : extract_image_url fragNoImage pageWithImage ["r"] =
      some "page.jpg" := rfl
  have h2 : extract_image_spec fragNoImage ["r"] = none := rfl
  refine ⟨h1, h2, ?_⟩
  rw [h1, h2]
  simp

lemma extract_image_go_of_spec (response : Response) (rules : List String)
    (acc : Option String) (v : String)
    (h : extract_image_spec response rules = some v) :
    extract_image_go response acc rules = some v := by
  induction rules generalizing acc with
  | nil => exact absurd h (by simp [extract_image_spec])
  | cons s rest ih =>
    show (if truthyS (runSelector response s) then runSelector response s
        else extract_image_go response (runSelector response s) rest) = some v
    have hspec : (if truthyS (runSelector response s) then runSelector response s
        else extract_image_spec response rest) = some v := h
    by_cases ht : truthyS (runSelector response s) = true
    · rw [if_pos ht] at hspec ⊢
      exact hspec
    · rw [if_neg ht] at hspec ⊢
      exact ih _ hspec

lemma extract_image_go_all_none (response : Response) (rules : List String)
    (h : ∀ s ∈ rules, runSelector response s = none) :
    extract_image_go response none rules = none := by
  induction rules with
  | nil => rfl
  | cons s rest ih =>
    show (if truthyS (runSelector response s) then runSelector response s
        else extract_image_go response (runSelector response s) rest) = none
    have hs : runSelector response s = none := h s (List.mem_cons_self _ _)
    rw [hs]
    show (if truthyS none then none
        else extract_image_go response none rest) = none
    rw [if_neg (by simp [truthyS])]
    exact ih (fun t ht => h t (List.mem_cons_of_mem _ ht))

/-- C5 (amended): the selector chain tries the rules strictly in declared
order but as queries against the full page response, not the product
fragment: the result is independent of the fragment argument; the first
rule whose response query yields a non-empty match wins (no later rule
can change the result); and when no rule's response query matches at
all, the result is absent. -/
theorem extract_image_url_amended (product product' response : Response)
    (rules : List String) :
    extract_image_url product response rules =
        extract_image_url product' response rules ∧
      (∀ v, extract_image_spec response rules = some v →
        extract_image_url product response rules = some v) ∧
      ((∀ s ∈ rules, runSelector response s = none) →
        extract_image_url product response rules = none) := by
  refine ⟨rfl, ?_, ?_⟩
  · intro v hv
    exact extract_image_go_of_spec response rules none v hv
  · intro hnone
    exact extract_image_go_all_none response rules hnone

/-- Witness for C5's amended theorem: with rules ["a", "r"] the second
rule is the first non-empty response match and wins. -/
theorem extract_image_url_amended_witness :
    extract_image_url fragNoImage pageWithImage ["a", "r"] = some "page.jpg" :=
  (extract_image_url_amended fragNoImage fragNoImage pageWithImage
    ["a", "r"]).2.1 "page.jpg" rfl

/-- The retry check `BloomingdalesImageScraper.check_missing_urls_and_retry`
(src/bloomingdales_products/spiders/bloomingdales_image_scraper.py,
lines 145-158): after a pass's `closed` handler saves the updated
dataset, re-read it and launch a fresh crawl of the same spider iff some
rows still have a null or empty image URL.  `missing` is the number of
such rows; the result says whether a new pass is scheduled. -/
def check_missing_urls_and_retry (missing : ℕ) : Bool := missing != 0

/-- Backfill pass `k`: pass 0 is the initial invocation; because each
pass's `closed` handler ends by calling `check_missing_urls_and_retry`,
pass `k+1` runs iff pass `k` ran and ended with missing rows, where
`m k` counts the rows still missing an image after pass `k`. -/
def passRuns (m : ℕ → ℕ) : ℕ → Prop
  | 0 => True
  | k + 1 => passRuns m k ∧ check_missing_urls_and_retry (m k) = true

/-- C9 counterexample: with one permanently missing image (every pass
ends with 1 missing row) passes 2 and 3 both run — a second and a third
re-invocation — so the backfill is not limited to one bounded retry. -/
theorem backfill_retry_unbounded :
    passRuns (fun _ => 1) 2 ∧ passRuns (fun _ => 1) 3 :=
  ⟨⟨⟨trivial, rfl⟩, rfl⟩, ⟨⟨⟨trivial, rfl⟩, rfl⟩, rfl⟩⟩

/-- C9 (amended): the backfill re-invokes itself with no retry counter:
pass k runs iff every earlier pass ended with at least one row still
missing an image, so the recursion stops only when some pass ends with
zero missing rows, and never on its own. -/
theorem backfill_passes_iff (m : ℕ → ℕ) (k : ℕ) :
    passRuns m k ↔ ∀ j < k, m j ≠ 0 := by
  induction k with
  | zero => simp [passRuns]
  | succ k ih =>
    show (passRuns m k ∧ check_missing_urls_and_retry (m k) = true) ↔ _
    rw [ih]
    constructor
    · rintro ⟨hall, hk⟩ j hj
      rcases Nat.lt_succ_iff_lt_or_eq.mp hj with h | h
      · exact hall j h
      · subst h
        simpa [check_missing_urls_and_retry] using hk
    · intro hall
      refine ⟨fun j hj => hall j (Nat.lt_succ_of_lt hj), ?_⟩
      have hk := hall k (Nat.lt_succ_self k)
      simpa [check_missing_urls_and_retry] using hk

/-- Witness for C9's amended theorem at a concrete missing-count
sequence: if pass 0 clears all missing rows, pass 1 never runs. -/
theorem backfill_passes_iff_witness :
    ¬ passRuns (fun _ => 0) 1 := by
  rw [backfill_passes_iff (fun _ => 0) 1]
  intro h
  exact h 0 (by norm_num) rfl

/-! ### The rating regex and the record assembler -/

/-- Match a literal at the head of the input; on success return the rest. -/
def matchLiteral : List Char → List Char → Option (List Char)
  | [], cs => some cs
  | _ :: _, [] => none
  | p :: ps, c :: cs => if p = c then matchLiteral ps cs else none

/-- The `" stars with (\d+) reviews"` tail of the rating pattern, given
the already-parsed star mantissa `m` with `k` fractional digits. -/
def matchRatingTail (m k : ℕ) (rest : List Char) : Option (ℚ × ℕ) :=
  match matchLiteral " stars with ".data rest with
  | none => none
  | some r5 =>
    let ds3 := r5.takeWhile Char.isDigit
    let r6 := r5.drop ds3.length
    if ds3.isEmpty then none
    else
      match matchLiteral " reviews".data r6 with
      | none => none
      | some _ => some (ratOfRep ((m : ℤ), k, 0), digitsVal ds3)

/-- Try the pattern `Rated (\d+\.?\d*) stars with (\d+) reviews` at the
head of the input.  The greedy quantifiers are deterministic here: after
a maximal digit run the optional dot either matches a literal `.` or the
literal ` stars` must follow; `float(group(1))` is the exact decimal. -/
def matchRatingAt (cs : List Char) : Option (ℚ × ℕ) :=
  match matchLiteral "Rated ".data cs with
  | none => none
  | some r1 =>
    let ds1 := r1.takeWhile Char.isDigit
    let r2 := r1.drop ds1.length
    if ds1.isEmpty then none
    else
      match r2 with
      | '.' :: r3 =>
        let ds2 := r3.takeWhile Char.isDigit
        matchRatingTail (digitsVal (ds1 ++ ds2)) ds2.length (r3.drop ds2.length)
      | _ => matchRatingTail (digitsVal ds1) 0 r2

/-- Python `re.search`: the leftmost position where the pattern matches. -/
def searchRating : List Char → Option (ℚ × ℕ)
  | [] => none
  | c :: cs =>
    match matchRatingAt (c :: cs) with
    | some r => some r
    | none => searchRating cs

/-- The normalizer `BloomingdalesSpider.extract_rating_and_reviews`
(src/bloomingdales_products/spiders/bloomingdales.py, lines 226-241):
search the aria-label for the fixed pattern; on a match return the float
star rating and the integer review count, else (None, None). -/
def extract_rating_and_reviews (rating_text : String) : Option ℚ × Option ℕ :=
  match searchRating rating_text.data with
  | some r => (some r.1, some r.2)
  | none => (none, none)

/-- The per-product selectors of `parse_designer_brand` (lines 107-117)
and `get_price` (lines 243-254), as written in the source. -/
def product_url_sel : String :=
  "div.product-description.margin-top-xxs div:nth-child(1) a::attr(href)"

def product_name_sel : String :=
  "div.product-description.margin-top-xxs div:nth-child(1) a div.product-name::text"

def bestseller_sel : String := "div.eyebrow.flexText::text"

def rating_info_sel : String :=
  "div.reviewlet-spacing div fieldset::attr(aria-label)"

def image_data_src_sel : String :=
  "div.v-scroller ul li.active img::attr(data-src)"

def discount_marker_sel : String :=
  ".//div[@class=\"show-percent-off\"]/span/span[contains(text(),\"Now\") or contains(text(),\"Sale\")]/text()"

def discount_price_sel : String :=
  ".//div[@class=\"show-percent-off\"]/span[1]/text()"

def strike_price_sel : String :=
  ".//div[@class=\"pricing\"]//span[contains(@class,\"price-strike\")]/text()"

def reg_price_sel : String :=
  ".//div[@class=\"pricing\"]//span[contains(@class,\"price-reg\")]/text()"

/-- The deriver `BloomingdalesSpider.get_price` (lines 243-254): if the "Now"/"Sale"
marker span is truthy, the discounted price comes from the first span
and the full price from the struck-through span; otherwise only the
regular price is read and the discounted price stays None.  Returns
(full_price, discounted_price). -/
def get_price (product : Response) : Option ℚ × Option ℚ :=
  let discount_price_text := product.xpath discount_marker_sel
  if truthyS discount_price_text then
    (convert_price_to_float (product.xpath strike_price_sel),
      convert_price_to_float (product.xpath discount_price_sel))
  else
    (convert_price_to_float (product.xpath reg_price_sel), none)

/-- Python `True if bestseller_selector and "Best Seller" in bestseller_selector
else False` (line 112). -/
def best_seller_status_of : Option String → Bool
  | none => false
  | some s => s != "" && pyContains "Best Seller" s

/-- The item dict built in `parse_designer_brand` (lines 156-180) for a
fragment whose product link was truthy, given the already-computed
product code.  `today` stands for `datetime.now().strftime('%Y-%m-%d')`
and `urljoin` for scrapy's `response.urljoin`, both external inputs. -/
def assemble_item (brand_name today : String) (urljoin : String → String)
    (product response : Response) (product_code : Option String) : Row :=
  let product_name := product.css product_name_sel
  let rating :=
    if truthyS (product.css rating_info_sel) then
      extract_rating_and_reviews ((product.css rating_info_sel).getD "")
    else (none, none)
  let image_url0 := product.css image_data_src_sel
  let image_url :=
    if truthyS image_url0 then image_url0
    else extract_image_url product response image_selectors
  let prices := get_price product
  ⟨some "www.bloomingdales.com", some today, some brand_name, product_code,
    some "USA", some "USD", prices.1, prices.2, rating.1, rating.2,
    some (best_seller_status_of (product.css bestseller_sel)),
    (match product_name with
      | some s => if s = "" then none else some (pyStrip s)
      | none => none),
    image_url, some (urljoin ((product.css product_url_sel).getD ""))⟩

/-- One iteration of the product loop of `parse_designer_brand` (lines
106-182): query the product link, compute the product code (which can
raise IndexError on a link without the "?ID=" marker), and yield one
item iff the link is truthy; the field extractions themselves are pure,
so a missing optional field only makes the corresponding item entry
None. -/
def parse_fragment (brand_name today : String) (urljoin : String → String)
    (product response : Response) : Except String (Option Row) :=
  match extract_product_code (product.css product_url_sel) with
  | Except.error e => Except.error e
  | Except.ok code =>
    if truthyS (product.css product_url_sel) then
      Except.ok (some (assemble_item brand_name today urljoin product
        response code))
    else Except.ok none

lemma parse_fragment_of_ok (brand_name today : String)
    (urljoin : String → String) (product response : Response)
    (code : Option String)
    (h : extract_product_code (product.css product_url_sel) =
      Except.ok code) :
    parse_fragment brand_name today urljoin product response =
      if truthyS (product.css product_url_sel) then
        Except.ok (some (assemble_item brand_name today urljoin product
          response code))
      else Except.ok none := by
  unfold parse_fragment
  rw [h]

lemma parse_fragment_of_error (brand_name today : String)
    (urljoin : String → String) (product response : Response)
    (e : String)
    (h : extract_product_code (product.css product_url_sel) =
      Except.error e) :
    parse_fragment brand_name today urljoin product response =
      Except.error e := by
  unfold parse_fragment
  rw [h]

/-- A fragment whose product link lacks the "?ID=" parameter. -/
def fragBadLink : Response :=
  ⟨fun sel => if sel = product_url_sel then
      some "/shop/product/slippers" else none,
    fun _ => none⟩

/-- A response with no matches at all. -/
def emptyResponse : Response := ⟨fun _ => none, fun _ => none⟩

/-- C6 counterexample: a fragment whose product link is recoverable (a
present, non-empty href) but lacks the "?ID=" marker makes the assembler
raise IndexError and emit nothing, refuting "emits a record if and only
if a product link is recoverable". -/
theorem parse_fragment_raises_on_bad_link :
    fragBadLink.css product_url_sel = some "/shop/product/slippers" ∧
      parse_fragment "Brand" "2024-01-01" id fragBadLink emptyResponse =
        Except.error "IndexError: list index out of range" ∧
      ∀ row, parse_fragment "Brand" "2024-01-01" id fragBadLink emptyResponse ≠
        Except.ok (some row) := by
  have h2 : parse_fragment "Brand" "2024-01-01" id fragBadLink emptyResponse =
      Except.error "IndexError: list index out of range" := rfl
  refine ⟨rfl, h2, ?_⟩
  intro row h
  rw [h2] at h
  exact Except.noConfusion h

/-- C6 (amended): a fragment emits exactly one record iff its product
link is present, non-empty and contains the "?ID=" marker; a fragment
with a falsy link emits zero records; a fragment whose non-empty link
lacks the marker raises IndexError and emits nothing; and since the
statement quantifies over every fragment, absence of any optional field
(image, rating, price) alone never suppresses emission. -/
theorem parse_fragment_emission (brand today : String)
    (urljoin : String → String) (product response : Response) :
    (truthyS (product.css product_url_sel) = false →
      parse_fragment brand today urljoin product response =
        Except.ok none) ∧
    (∀ url, product.css product_url_sel = some url → url ≠ "" →
      (pySplit url "?ID=").length ≥ 2 →
      ∃ row, parse_fragment brand today urljoin product response =
          Except.ok (some row) ∧ row.product_code ≠ none) ∧
    (∀ url, product.css product_url_sel = some url → url ≠ "" →
      (pySplit url "?ID=").length < 2 →
      parse_fragment brand today urljoin product response =
        Except.error "IndexError: list index out of range") := by
  refine ⟨?_, ?_, ?_⟩
  · intro hf
    rcases hurl : product.css product_url_sel with _ | s
    · have hok : extract_product_code (product.css product_url_sel) =
          Except.ok none := by
        rw [hurl]
        rfl
      rw [parse_fragment_of_ok brand today urljoin product response none hok,
        if_neg]
      rw [hurl] at hf ⊢
      simp [hf]
    · rw [hurl] at hf
      have hs : s = "" := by
        simpa [truthyS] using hf
      subst hs
      have hok : extract_product_code (product.css product_url_sel) =
          Except.ok none := by
        rw [hurl]
        rfl
      rw [parse_fragment_of_ok brand today urljoin product response none hok,
        if_neg]
      rw [hurl]
      simp [truthyS]
  · intro url hurl hne hlen
    rcases extract_product_code_with_marker url hne hlen with ⟨t, ht, hval⟩
    have hok : extract_product_code (product.css product_url_sel) =
        Except.ok (some ((pySplit t "&").headD "")) := by
      rw [hurl]
      exact hval
    have htr : truthyS (product.css product_url_sel) = true := by
      rw [hurl]
      simp [truthyS, hne]
    refine ⟨assemble_item brand today urljoin product response
        (some ((pySplit t "&").headD "")), ?_, by simp [assemble_item]⟩
    rw [parse_fragment_of_ok brand today urljoin product response _ hok,
      if_pos htr]
  · intro url hurl hne hlen
    have herr : extract_product_code (product.css product_url_sel) =
        Except.error "IndexError: list index out of range" := by
      rw [hurl]
      exact extract_product_code_no_marker url hne hlen
    exact parse_fragment_of_error brand today urljoin product response _ herr

/-- A fragment with a well-formed product link and every optional field
absent. -/
def fragOnlyLink : Response :=
  ⟨fun sel => if sel = product_url_sel then
      some "/shop/product/p?ID=77&cm=x" else none,
    fun _ => none⟩

/-- Witness for C6's amended theorem: a fragment with a valid "?ID=" link
and no image, rating or price still emits a record with a product code. -/
theorem parse_fragment_emission_witness :
    ∃ row, parse_fragment "Brand" "2024-01-01" id fragOnlyLink emptyResponse =
        Except.ok (some row) ∧ row.product_code ≠ none :=
  (parse_fragment_emission "Brand" "2024-01-01" id fragOnlyLink
      emptyResponse).2.1 "/shop/product/p?ID=77&cm=x" rfl (by decide) (by decide)

/-- C2: price normalization never throws — the embedding returns a plain
`Option ℚ` for every input because the source catches the only exception
`float()` can raise on a string (`ValueError`) — and on the spec's cases:
"$1,234.56" yields 1234.56 (currency symbol and thousands separators
stripped), the range "$10 - $20" yields its lower bound 10, and empty,
missing or unparseable input yields `none`. -/
theorem convert_price_total_and_cases :
    (∀ s : Option String, convert_price_to_float s = none ∨
      ∃ q, convert_price_to_float s = some q) ∧
    convert_price_to_float (some "$1,234.56") = some (1234.56 : ℚ) ∧
    convert_price_to_float (some "$10 - $20") = some (10 : ℚ) ∧
    convert_price_to_float (some "") = none ∧
    convert_price_to_float none = none ∧
    convert_price_to_float (some "garbage") = none := by
  refine ⟨?_, ?_, ?_, rfl, rfl, ?_⟩
  · intro s
    cases h : convert_price_to_float s with
    | none => exact Or.inl rfl
    | some q => exact Or.inr ⟨q, rfl⟩
  · have h1 : price_lower_text "$1,234.56" = "1234.56" := by decide
    have h2 : pyFloatRep "1234.56" = some (123456, 2, 0) := by decide
    show (if ("$1,234.56" : String) = "" then none
        else pyFloat (price_lower_text "$1,234.56")) = some (1234.56 : ℚ)
    rw [if_neg (by decide), h1]
    show (pyFloatRep "1234.56").map ratOfRep = some (1234.56 : ℚ)
    rw [h2]
    show some (ratOfRep (123456, 2, 0)) = some (1234.56 : ℚ)
    norm_num [ratOfRep]
  · have h1 : price_lower_text "$10 - $20" = "10" := by decide
    have h2 : pyFloatRep "10" = some (10, 0, 0) := by decide
    show (if ("$10 - $20" : String) = "" then none
        else pyFloat (price_lower_text "$10 - $20")) = some (10 : ℚ)
    rw [if_neg (by decide), h1]
    show (pyFloatRep "10").map ratOfRep = some (10 : ℚ)
    rw [h2]
    show some (ratOfRep (10, 0, 0)) = some (10 : ℚ)
    norm_num [ratOfRep]
  · have h1 : pyFloatRep (price_lower_text "garbage") = none := by decide
    show (if ("garbage" : String) = "" then none
        else pyFloat (price_lower_text "garbage")) = none
    rw [if_neg (by decide)]
    show (pyFloatRep (price_lower_text "garbage")).map ratOfRep = none
    rw [h1]
    rfl

/-- C1: for every existing persisted dataset containing a row with
product_code "X" and every sequence of new records containing a row with
the same product_code, `finalize` produces a dataset with exactly one row
for "X", and that row is one of the new records (the first new record with
that code): new data supersedes existing rows on key collision. -/
theorem finalize_new_wins (new ex : List Row) (x : String)
    (hex : ∃ r ∈ ex, keyOf r = some x)
    (hnew : ∃ r ∈ new, keyOf r = some x) :
    ∃ r ∈ new, keyOf r = some x ∧
      (finalize new (some ex)).filter
        (fun s => decide (keyOf s = some x)) = [r] := by
  have hne : new.filter (fun s => decide (keyOf s = some x)) ≠ [] := by
    rcases hnew with ⟨r, hr, hkey⟩
    intro hnil
    have h := List.filter_eq_nil_iff.mp hnil r hr
    simp [hkey] at h
  rcases List.exists_cons_of_ne_nil hne with ⟨r₀, t, hrt⟩
  have hr₀ : r₀ ∈ new ∧ keyOf r₀ = some x := by
    have hmem : r₀ ∈ new.filter (fun s => decide (keyOf s = some x)) := by
      rw [hrt]
      exact List.mem_cons_self _ _
    have h2 := List.mem_filter.mp hmem
    exact ⟨h2.1, by simpa using h2.2⟩
  refine ⟨r₀, hr₀.1, hr₀.2, ?_⟩
  have hfin : finalize new (some ex) =
      dedupLast (ex ++ dedupLast (ex ++ dedupFirst new)) := rfl
  rw [hfin, filter_dedupLast, List.filter_append, filter_dedupLast,
    List.filter_append, filter_dedupFirst, hrt]
  simp [List.getLast?_append]

/-- Witness for C1: an existing row for "X" with full_price 100 and a new
row for "X" with full_price 90 merge to exactly the new row. -/
theorem finalize_new_wins_witness :
    ∃ r ∈ [sampleRow (some "X") (some 90)], keyOf r = some "X" ∧
      (finalize [sampleRow (some "X") (some 90)]
          (some [sampleRow (some "X") (some 100)])).filter
        (fun s => decide (keyOf s = some "X")) = [r] :=
  finalize_new_wins [sampleRow (some "X") (some 90)]
    [sampleRow (some "X") (some 100)] "X"
    ⟨sampleRow (some "X") (some 100), List.mem_cons_self _ _, rfl⟩
    ⟨sampleRow (some "X") (some 90), List.mem_cons_self _ _, rfl⟩

/-- C7: finalize is idempotent with respect to row count: running finalize
a second time with the same new records, taking the first run's output as
the existing dataset, yields a dataset of the same row count. -/
theorem finalize_idempotent_rowcount (new : List Row)
    (existing : Option (List Row)) :
    (finalize new (some (finalize new existing))).length =
      (finalize new existing).length := by
  have h1 : finalize new (some (finalize new existing)) =
      dedupLast ((finalize new existing) ++
        dedupLast ((finalize new existing) ++ dedupFirst new)) := rfl
  rw [h1, length_dedupLast, keysF_append, keysF_dedupLast, keysF_append]
  have hsub := keysF_dedupFirst_subset_finalize new existing
  have hcover : keysF (finalize new existing) ∪
      (keysF (finalize new existing) ∪ keysF (dedupFirst new)) =
        keysF (finalize new existing) := by
    rw [← Finset.union_assoc, Finset.union_self]
    exact Finset.union_eq_left.mpr hsub
  rw [hcover, ← length_eq_card_keysF (nodup_keys_finalize new existing)]

/-- C8: the dataset produced by the pipeline finalize step never contains
two rows with the same product_code, for every combination of new records
and (possibly absent) pre-existing CSV/Excel datasets; the spider's
`spider_closed` post-pass re-establishes the same invariant. -/
theorem close_spider_key_unique (items p : List Row)
    (exC exXl : Option (List Row)) :
    ((close_spider items exC exXl).map keyOf).Nodup ∧
      ((spider_closed p).map keyOf).Nodup := by
  constructor
  · rcases exC with _ | ex₁ <;> rcases exXl with _ | ex₂
    · exact nodup_keys_dedupFirst items
    · exact nodup_keys_dedupLast _
    · exact nodup_keys_dedupLast _
    · exact nodup_keys_dedupLast _
  · exact nodup_keys_dedupFirst p

/-- C10: a finalize run with zero new records leaves a persisted dataset
(whose keys are unique, as every persisted dataset's are) unchanged, and a
run with no pre-existing dataset is the empty base case: it just writes
the deduplicated new records. -/
theorem finalize_preserves_existing (ex new : List Row)
    (h : (ex.map keyOf).Nodup) :
    finalize [] (some ex) = ex ∧ finalize new none = dedupFirst new := by
  constructor
  · have h1 : finalize [] (some ex) = dedupLast (ex ++ dedupLast (ex ++ [])) := rfl
    rw [h1, List.append_nil, dedupLast_eq_self h,
      dedupLast_append_of_keys_subset (fun r hr => List.mem_map_of_mem keyOf hr),
      dedupLast_eq_self h]
  · rfl

/-- Witness for C10 at a concrete one-row persisted dataset. -/
theorem finalize_preserves_existing_witness :
    finalize [] (some [sampleRow (some "A") none]) =
        [sampleRow (some "A") none] ∧
      finalize [sampleRow (some "B") none] none =
        dedupFirst [sampleRow (some "B") none] :=
  finalize_preserves_existing [sampleRow (some "A") none]
    [sampleRow (some "B") none] (by simp)

